import Mathlib

/-!
Shallow embedding of the quadrant-path tile viewer (`src/main.py`,
class `OptimizedQuadrantZoomViewer`): filename derivation, the bounded
image cache with FIFO eviction and placeholder fallback, quadrant
geometry and hit-testing, and the zoom animation state machine.
Python strings are modelled as `List Char`, quadrant paths as
`List (Fin 4)` (their canonical string form underscores the digits),
machine floats that only ever hold exact small values as `ℚ`.
-/

namespace QuadZoom

/-- Image resource keys are character strings (Python `str` filenames). -/
abbrev Key := List Char

/-- An image handle: either a real decoded image together with its pixel
size, or the synthetic placeholder produced by `create_placeholder_image`. -/
inductive Handle where
  | real (key : Key) (w : Nat) (h : Nat)
  | placeholder
  deriving DecidableEq

/-- Size of an image, as PIL `Image.size`; `create_placeholder_image`
builds a 400×400 pixel array. -/
def Handle.size : Handle → Nat × Nat
  | .real _ w h => (w, h)
  | .placeholder => (400, 400)

/-- The sentinel cache key `"placeholder"` used by `load_current_image`. -/
def placeholderKey : Key := "placeholder".data

/-- Python `os.path.splitext` (posixpath semantics): split `p` into stem
and extension at the last dot, provided that dot lies in the final path
component (after the last slash) and is preceded there by a non-dot
character, so that leading dots of a basename never start an extension;
otherwise the whole string is the stem and the extension is empty. -/
def splitext (p : List Char) : List Char × List Char :=
  let r := p.reverse
  let base := (r.takeWhile (fun c => c ≠ '/')).reverse
  if (base.dropWhile (fun c => c = '.')).any (fun c => c = '.') then
    (((r.dropWhile (fun c => c ≠ '.')).drop 1).reverse,
     '.' :: (r.takeWhile (fun c => c ≠ '.')).reverse)
  else (p, [])

/-- The decimal digit character of a quadrant index (Python `str(q)`). -/
def quadChar (q : Fin 4) : Char := Char.ofNat (48 + q.val)

/-- Canonical string form of a quadrant path: digit characters joined by
`'_'` — exactly the strings `current_path` ranges over (e.g. `"0_2_1"`). -/
def pathStr : List (Fin 4) → List Char
  | [] => []
  | [q] => [quadChar q]
  | q :: qs => quadChar q :: '_' :: pathStr qs

/-- `get_image_filename`: the root filename for the empty path, otherwise
`f"{base_name}_{path}{extension}"` with `(base_name, extension)` given by
`os.path.splitext` on the root filename. -/
def getImageFilename (root : Key) (path : List (Fin 4)) : Key :=
  if path = [] then root
  else (splitext root).1 ++ '_' :: (pathStr path ++ (splitext root).2)

/-- The image-cache state: insertion-ordered entries (Python dicts keep
insertion order, and `next(iter(d))` yields the oldest insertion), plus a
count of external loader invocations (`Image.open` calls). -/
structure CacheState where
  entries : List (Key × Handle)
  calls : Nat
  deriving DecidableEq

/-- Lines 96–125 of `load_current_image`: return a cached handle on a
hit; on a miss invoke the loader (`loader k = some (w, h)` models a
successful `Image.open` of a `w × h` image, `none` a
`FileNotFoundError`); before a successful insert, evict the oldest entry
when `len(cache) >= cache_size`; on failure fall back to the entry under
`"placeholder"`, creating it (without any capacity check) if absent. -/
def getOrLoad (loader : Key → Option (Nat × Nat)) (cacheSize : Nat)
    (s : CacheState) (k : Key) : CacheState × Handle :=
  match s.entries.find? (fun e => e.1 == k) with
  | some e => (s, e.2)
  | none =>
    match loader k with
    | some wh =>
      let img : Handle := .real k wh.1 wh.2
      let entries :=
        if cacheSize ≤ s.entries.length then s.entries.drop 1 else s.entries
      (⟨entries ++ [(k, img)], s.calls + 1⟩, img)
    | none =>
      let entries :=
        if s.entries.any (fun e => e.1 == placeholderKey) then s.entries
        else s.entries ++ [(placeholderKey, Handle.placeholder)]
      (⟨entries, s.calls + 1⟩,
       ((entries.find? (fun e => e.1 == placeholderKey)).map Prod.snd).getD
         Handle.placeholder)

/-- Run a sequence of load requests against the cache. -/
def runGetOrLoad (loader : Key → Option (Nat × Nat)) (cacheSize : Nat)
    (s : CacheState) (keys : List Key) : CacheState :=
  keys.foldl (fun t k => (getOrLoad loader cacheSize t k).1) s

/-- Number of cached entries stored under a key other than `"placeholder"`. -/
def nonPlaceholderCount (entries : List (Key × Handle)) : Nat :=
  entries.countP (fun e => !(e.1 == placeholderKey))

/-- Number of cached entries stored under the key `"placeholder"`. -/
def placeholderCount (entries : List (Key × Handle)) : Nat :=
  entries.countP (fun e => e.1 == placeholderKey)

/-- `get_quadrant_bounds`: the rectangle `(x1, y1, x2, y2)` of a quadrant
of a `w × h` image, midpoints computed with `>> 1`. -/
def quadrantBounds (w h : Nat) (q : Fin 4) : Nat × Nat × Nat × Nat :=
  let mx := w >>> 1
  let my := h >>> 1
  match q with
  | ⟨0, _⟩ => (0, 0, mx, my)
  | ⟨1, _⟩ => (mx, 0, w, my)
  | ⟨2, _⟩ => (0, my, mx, h)
  | ⟨3, _⟩ => (mx, my, w, h)
  | ⟨n + 4, hn⟩ => absurd hn (by omega)

/-- Lines 358–363 of `on_mouse_move`: the quadrant under the pointer at
`(x, y)` on a `w × h` image, `(2 if y >= mid_y else 0) + (1 if x >= mid_x
else 0)`. Pointer coordinates are exact rationals. -/
def classifyQuadrant (x y : ℚ) (w h : Nat) : Nat :=
  (if ((h >>> 1 : Nat) : ℚ) ≤ y then 2 else 0) +
    (if ((w >>> 1 : Nat) : ℚ) ≤ x then 1 else 0)

/-- Membership of a point in a quadrant's rectangle, half-open on the
high edge so that the four rectangles tile the image. -/
def inQuadrantRect (w h : Nat) (q : Fin 4) (x y : ℚ) : Prop :=
  ((quadrantBounds w h q).1 : ℚ) ≤ x ∧ x < ((quadrantBounds w h q).2.2.1 : ℚ) ∧
    ((quadrantBounds w h q).2.1 : ℚ) ≤ y ∧ y < ((quadrantBounds w h q).2.2.2 : ℚ)

/-- The mutable state of `OptimizedQuadrantZoomViewer` that the claims
concern. `current_image` is always set once the constructor has run, so
it is a plain `Handle`; `pending_path` starts out `None`. `timerOn`
records whether the frame timer is running. -/
structure Viewer where
  rootImagePath : Key
  cacheSize : Nat
  currentPath : List (Fin 4)
  currentImage : Handle
  mouseQuadrant : Fin 4
  isAnimating : Bool
  animationFrames : Nat
  currentFrame : Nat
  zoomStartBounds : Nat × Nat × Nat × Nat
  zoomEndBounds : Nat × Nat × Nat × Nat
  pendingPath : Option (List (Fin 4))
  zoomDirection : Int
  timerOn : Bool
  imageCache : List (Key × Handle)
  loaderCalls : Nat
  deriving DecidableEq

/-- `load_current_image`: resolve the filename of `current_path` through
the cache (`getOrLoad`) and set `current_image` to the result. -/
def loadCurrentImage (loader : Key → Option (Nat × Nat)) (v : Viewer) : Viewer :=
  let r := getOrLoad loader v.cacheSize ⟨v.imageCache, v.loaderCalls⟩
    (getImageFilename v.rootImagePath v.currentPath)
  { v with imageCache := r.1.entries, loaderCalls := r.1.calls,
           currentImage := r.2 }

/-- `start_zoom_animation` (lines 287–336): a no-op while animating;
otherwise set up the animation session.  Zoom-in: start bounds are the
full current image rect, end bounds the target quadrant's rect, and the
pending path appends the target quadrant.  Zoom-out: start and end
bounds default to the full current rect; when `current_path` is
non-empty, drop its last element immediately, synchronously load the
parent image, and re-aim the session from the removed quadrant's rect
(in the parent image) to the parent's full rect.  Finally reset the
frame counter and start the timer. -/
def startZoomAnimation (loader : Key → Option (Nat × Nat)) (v : Viewer)
    (targetQuadrant : Fin 4) (zoomIn : Bool) : Viewer :=
  if v.isAnimating then v
  else
    let v1 := { v with isAnimating := true,
                       zoomDirection := if zoomIn then 1 else -1 }
    let v2 :=
      if zoomIn then
        { v1 with
          zoomStartBounds := (0, 0, v1.currentImage.size.1, v1.currentImage.size.2),
          zoomEndBounds :=
            quadrantBounds v1.currentImage.size.1 v1.currentImage.size.2 targetQuadrant,
          pendingPath := some (v1.currentPath ++ [targetQuadrant]) }
      else
        let v1 := { v1 with
          zoomStartBounds := (0, 0, v1.currentImage.size.1, v1.currentImage.size.2),
          zoomEndBounds := (0, 0, v1.currentImage.size.1, v1.currentImage.size.2) }
        match v1.currentPath.getLast? with
        | none => v1
        | some lastQuadrant =>
          let v1 := { v1 with currentPath := v1.currentPath.dropLast }
          let v1 := loadCurrentImage loader v1
          { v1 with
            zoomStartBounds :=
              quadrantBounds v1.currentImage.size.1 v1.currentImage.size.2 lastQuadrant,
            zoomEndBounds := (0, 0, v1.currentImage.size.1, v1.currentImage.size.2) }
    { v2 with currentFrame := 0, timerOn := true }

/-- The completion branch of `animate_zoom` (frame count reached): stop
animating; on zoom-in commit `current_path := pending_path` and resolve
the tile through the cache; on zoom-out only redraw; stop the timer.
(`pending_path` is always set before a zoom-in animation completes; if
it were not, the path is kept.) -/
def animateZoomFinish (loader : Key → Option (Nat × Nat)) (v : Viewer) : Viewer :=
  let v1 := { v with isAnimating := false }
  let v2 :=
    if v1.zoomDirection = 1 then
      loadCurrentImage loader
        { v1 with currentPath := v1.pendingPath.getD v1.currentPath }
    else v1
  { v2 with timerOn := false }

/-- `animate_step`: one timer tick.  Before the final frame it only
emits an interpolated rect (a pure render output, `frameRect`) and
advances the frame counter; at the final frame it runs the completion
branch of `animate_zoom`. -/
def animateStep (loader : Key → Option (Nat × Nat)) (v : Viewer) : Viewer :=
  if v.animationFrames ≤ v.currentFrame then animateZoomFinish loader v
  else { v with currentFrame := v.currentFrame + 1 }

/-- Lines 264–268 of `animate_zoom`: the eased interpolation parameter
of frame `f` out of `frames`, `t = f / (frames - 1)` smoothstepped to
`t * t * (3 - 2 * t)`. -/
def easedParam (frames f : Nat) : ℚ :=
  let t : ℚ := (f : ℚ) / ((frames : ℚ) - 1)
  t * t * (3 - 2 * t)

/-- Lines 270–279 of `animate_zoom`: the viewport rectangle emitted at
the current frame, each coordinate `start * (1 - t) + end * t` with the
eased parameter `t`. -/
def frameRect (v : Viewer) : ℚ × ℚ × ℚ × ℚ :=
  let t := easedParam v.animationFrames v.currentFrame
  let invT : ℚ := 1 - t
  ((v.zoomStartBounds.1 : ℚ) * invT + (v.zoomEndBounds.1 : ℚ) * t,
   (v.zoomStartBounds.2.1 : ℚ) * invT + (v.zoomEndBounds.2.1 : ℚ) * t,
   (v.zoomStartBounds.2.2.1 : ℚ) * invT + (v.zoomEndBounds.2.2.1 : ℚ) * t,
   (v.zoomStartBounds.2.2.2 : ℚ) * invT + (v.zoomEndBounds.2.2.2 : ℚ) * t)

/-- Scroll wheel direction of a `scroll_event`. -/
inductive ScrollDir where
  | up
  | down
  deriving DecidableEq

/-- `on_scroll` (lines 370–382) for an event inside the axes: ignored
while animating; scroll up zooms into the hovered quadrant; scroll down
zooms out only when `current_path` is non-empty (quadrant argument `0`
is irrelevant for zoom-out). -/
def onScroll (loader : Key → Option (Nat × Nat)) (v : Viewer)
    (dir : ScrollDir) : Viewer :=
  if v.isAnimating then v
  else
    match dir with
    | .up => startZoomAnimation loader v v.mouseQuadrant true
    | .down =>
      if v.currentPath = [] then v
      else startZoomAnimation loader v 0 false

/-! Concrete loaders, request traces and viewer states used by the
counterexamples and witnesses below. -/

/-- A loader that fails only on the key `"!"`. -/
def cexLoader : Key → Option (Nat × Nat) :=
  fun k => if k = ['!'] then none else some (400, 400)

/-- Sixteen distinct successful keys followed by one failing key. -/
def cexKeysA : List Key :=
  ("ABCDEFGHIJKLMNOP".data.map (fun c => [c])) ++ [['!']]

/-- Seventeen further distinct successful keys. -/
def cexKeysB : List Key := "QRSTUVWXYZabcdefg".data.map (fun c => [c])

/-- A loader for which every resource is missing. -/
def failLoader : Key → Option (Nat × Nat) := fun _ => none

/-- A loader that finds every resource as a 400×400 image. -/
def okLoader : Key → Option (Nat × Nat) := fun _ => some (400, 400)

/-- An idle viewer at the root path showing a 400×400 root image. -/
def rootViewer : Viewer where
  rootImagePath := "root.jpg".data
  cacheSize := 16
  currentPath := []
  currentImage := Handle.real "root.jpg".data 400 400
  mouseQuadrant := 0
  isAnimating := false
  animationFrames := 20
  currentFrame := 0
  zoomStartBounds := (0, 0, 0, 0)
  zoomEndBounds := (0, 0, 0, 0)
  pendingPath := none
  zoomDirection := 1
  timerOn := false
  imageCache := [("root.jpg".data, Handle.real "root.jpg".data 400 400)]
  loaderCalls := 1

/-- An idle viewer three levels deep, at path `"0_2_1"`. -/
def deepViewer : Viewer where
  rootImagePath := "root.jpg".data
  cacheSize := 16
  currentPath := [0, 2, 1]
  currentImage := Handle.real "root_0_2_1.jpg".data 400 400
  mouseQuadrant := 0
  isAnimating := false
  animationFrames := 20
  currentFrame := 0
  zoomStartBounds := (0, 0, 0, 0)
  zoomEndBounds := (0, 0, 0, 0)
  pendingPath := none
  zoomDirection := 1
  timerOn := false
  imageCache := []
  loaderCalls := 0

/-! Helper lemmas about `splitext`. -/

/-- Dropping the prefix of characters other than `'.'` from a list that
contains a `'.'` leaves a list starting with `'.'`. -/
theorem dropWhile_at_dot {l : List Char} (h : '.' ∈ l) :
    ∃ w, l.dropWhile (fun c => c ≠ '.') = '.' :: w := by
  induction l with
  | nil => cases h
  | cons c t ih =>
    by_cases hc : c = '.'
    · refine ⟨t, ?_⟩
      simp only [List.dropWhile_cons, hc]
      rw [if_neg (by simp)]
    · have ht : '.' ∈ t := by
        rcases List.mem_cons.mp h with h1 | h1
        · exact absurd h1.symm hc
        · exact h1
      obtain ⟨w, hw⟩ := ih ht
      refine ⟨w, ?_⟩
      simp only [List.dropWhile_cons]
      rw [if_pos (by simp [hc]), hw]

/-- The stem and the extension returned by `splitext` concatenate back to
the input. -/
theorem splitext_append (p : List Char) :
    (splitext p).1 ++ (splitext p).2 = p := by
  simp only [splitext]
  by_cases hc :
      (((p.reverse.takeWhile (fun c => c ≠ '/')).reverse.dropWhile
        (fun c => c = '.')).any (fun c => c = '.')) = true
  · rw [if_pos hc]
    have hdot : '.' ∈ p.reverse := by
      obtain ⟨c, hmem, hcdot⟩ := List.any_eq_true.mp hc
      have hcd : c = '.' := by simpa using hcdot
      subst hcd
      have h1 : '.' ∈ (p.reverse.takeWhile (fun c => c ≠ '/')).reverse :=
        (List.dropWhile_sublist _).subset hmem
      exact (List.takeWhile_sublist _).subset (List.mem_reverse.mp h1)
    obtain ⟨w, hw⟩ := dropWhile_at_dot hdot
    have hsplit :
        p.reverse.takeWhile (fun c => c ≠ '.') ++ '.' :: w = p.reverse := by
      rw [← hw]
      exact List.takeWhile_append_dropWhile _ _
    have hp := congrArg List.reverse hsplit
    rw [List.reverse_reverse, List.reverse_append, List.reverse_cons] at hp
    rw [hw, List.drop_succ_cons, List.drop_zero]
    rw [List.append_assoc, List.singleton_append] at hp
    exact hp
  · rw [if_neg hc]
    exact List.append_nil p

/-- The extension returned by `splitext` is empty or consists of a dot
followed by dot-free characters (it splits at the last dot). -/
theorem splitext_ext_shape (p : List Char) :
    (splitext p).2 = [] ∨
      ∃ t, (splitext p).2 = '.' :: t ∧ ∀ c ∈ t, c ≠ '.' := by
  simp only [splitext]
  by_cases hc :
      (((p.reverse.takeWhile (fun c => c ≠ '/')).reverse.dropWhile
        (fun c => c = '.')).any (fun c => c = '.')) = true
  · rw [if_pos hc]
    refine Or.inr ⟨(p.reverse.takeWhile (fun c => c ≠ '.')).reverse, rfl, ?_⟩
    intro c hmem
    have := List.mem_takeWhile_imp (List.mem_reverse.mp hmem)
    simpa using this
  · rw [if_neg hc]
    exact Or.inl rfl

/-- Claim C7 (confirmed): the derived resource key is the base name
unchanged for the empty path, and otherwise
`stem ++ "_" ++ join(path, "_") ++ extension`, where the base name
splits into stem and extension at the last extension separator (the
extension is empty or a single dot followed by dot-free characters, and
stem plus extension reassemble the base name; a base name without an
extension is all stem with empty extension). -/
theorem C7_resource_key (B : Key) (P : List (Fin 4)) :
    (P = [] → getImageFilename B P = B) ∧
    (P ≠ [] →
      getImageFilename B P =
        (splitext B).1 ++ '_' :: (pathStr P ++ (splitext B).2)) ∧
    (splitext B).1 ++ (splitext B).2 = B ∧
    ((splitext B).2 = [] ∨
      ∃ t, (splitext B).2 = '.' :: t ∧ ∀ c ∈ t, c ≠ '.') :=
  ⟨fun h => by simp [getImageFilename, h],
   fun h => by simp [getImageFilename, h],
   splitext_append B,
   splitext_ext_shape B⟩

/-- Witness for C7 at the spec's concrete scenario: base `"root.jpg"`
with path `"2"` yields the key `"root_2.jpg"`. -/
theorem C7_witness :
    getImageFilename "root.jpg".data [(2 : Fin 4)] = "root_2.jpg".data := by
  have h := (C7_resource_key "root.jpg".data [(2 : Fin 4)]).2.1 (by decide)
  exact h.trans (by decide)

/-! Helper lemmas about the cache. -/

/-- Unfolding `runGetOrLoad` on an empty request list. -/
theorem runGetOrLoad_nil (loader : Key → Option (Nat × Nat)) (N : Nat)
    (s : CacheState) : runGetOrLoad loader N s [] = s := rfl

/-- Unfolding `runGetOrLoad` on a request. -/
theorem runGetOrLoad_cons (loader : Key → Option (Nat × Nat)) (N : Nat)
    (s : CacheState) (k : Key) (ks : List Key) :
    runGetOrLoad loader N s (k :: ks) =
      runGetOrLoad loader N (getOrLoad loader N s k).1 ks := rfl

/-- A cache hit returns the cached handle and leaves the state unchanged
(in particular the insertion order is untouched). -/
theorem getOrLoad_hit (loader : Key → Option (Nat × Nat)) (N : Nat)
    (s : CacheState) (k : Key) (e : Key × Handle)
    (hfind : s.entries.find? (fun x => x.1 == k) = some e) :
    getOrLoad loader N s k = (s, e.2) := by
  simp [getOrLoad, hfind]

/-- A successful load of a missing key on a full cache drops exactly the
oldest-inserted entry and appends the new one. -/
theorem getOrLoad_evict (loader : Key → Option (Nat × Nat)) (N : Nat)
    (s : CacheState) (k : Key) (wh : Nat × Nat)
    (hfind : s.entries.find? (fun x => x.1 == k) = none)
    (hload : loader k = some wh) (hlen : N ≤ s.entries.length) :
    (getOrLoad loader N s k).1.entries =
      s.entries.drop 1 ++ [(k, Handle.real k wh.1 wh.2)] := by
  simp [getOrLoad, hfind, hload, hlen]

/-- A single successful request keeps the entry count at most `N`. -/
theorem getOrLoad_length_le (loader : Key → Option (Nat × Nat)) (N : Nat)
    (s : CacheState) (k : Key) (hN : 1 ≤ N) (hk : (loader k).isSome)
    (hs : s.entries.length ≤ N) :
    (getOrLoad loader N s k).1.entries.length ≤ N := by
  rcases hfind : s.entries.find? (fun x => x.1 == k) with _ | e
  · rcases hload : loader k with _ | wh
    · rw [hload] at hk
      simp at hk
    · by_cases hlen : N ≤ s.entries.length
      · simp only [getOrLoad, hfind, hload]
        simp [hlen, List.length_append, List.length_drop]
        omega
      · simp only [getOrLoad, hfind, hload]
        simp [hlen, List.length_append]
        omega
  · simp only [getOrLoad, hfind]
    exact hs

/-- Any all-successful request sequence keeps the entry count at most `N`. -/
theorem runGetOrLoad_length_le (loader : Key → Option (Nat × Nat)) (N : Nat)
    (hN : 1 ≤ N) :
    ∀ (keys : List Key) (s : CacheState),
      (∀ k ∈ keys, (loader k).isSome) → s.entries.length ≤ N →
      (runGetOrLoad loader N s keys).entries.length ≤ N := by
  intro keys
  induction keys with
  | nil =>
    intro s _ hs
    simpa [runGetOrLoad_nil] using hs
  | cons k ks ih =>
    intro s hk hs
    rw [runGetOrLoad_cons]
    exact ih _ (fun a ha => hk a (List.mem_cons_of_mem _ ha))
      (getOrLoad_length_le loader N s k hN (hk k (List.mem_cons_self _ _)) hs)

/-- A failing load never removes entries: it either leaves the cache
unchanged or appends the placeholder entry (with no capacity check). -/
theorem getOrLoad_fail_entries (loader : Key → Option (Nat × Nat)) (N : Nat)
    (s : CacheState) (k : Key) (hload : loader k = none) :
    (getOrLoad loader N s k).1.entries = s.entries ∨
    (getOrLoad loader N s k).1.entries =
      s.entries ++ [(placeholderKey, Handle.placeholder)] := by
  rcases hfind : s.entries.find? (fun x => x.1 == k) with _ | e
  · by_cases hany : s.entries.any (fun e => e.1 == placeholderKey) = true
    · left
      simp [getOrLoad, hfind, hload, hany]
    · right
      simp [getOrLoad, hfind, hload, hany]
  · left
    simp [getOrLoad, hfind]

/-- A single request preserves "at most one placeholder entry". -/
theorem getOrLoad_placeholderCount_le (loader : Key → Option (Nat × Nat))
    (N : Nat) (s : CacheState) (k : Key)
    (hs : placeholderCount s.entries ≤ 1) :
    placeholderCount (getOrLoad loader N s k).1.entries ≤ 1 := by
  rw [placeholderCount] at hs ⊢
  rcases hfind : s.entries.find? (fun x => x.1 == k) with _ | e
  · rcases hload : loader k with _ | wh
    · by_cases hany : s.entries.any (fun e => e.1 == placeholderKey) = true
      · simp only [getOrLoad, hfind, hload, hany, if_true]
        exact hs
      · have h0 : List.countP (fun e => e.1 == placeholderKey) s.entries = 0 := by
          rw [List.countP_eq_zero]
          intro a ha hp
          exact hany (List.any_eq_true.mpr ⟨a, ha, hp⟩)
        simp only [getOrLoad, hfind, hload, hany, if_false, Bool.false_eq_true]
        rw [List.countP_append, h0, List.countP_cons]
        simp
    · simp only [getOrLoad, hfind, hload]
      rw [List.countP_append]
      have hpre :
          List.countP (fun e => e.1 == placeholderKey)
              (if N ≤ s.entries.length then s.entries.drop 1 else s.entries) ≤
            List.countP (fun e => e.1 == placeholderKey) s.entries := by
        split
        · exact List.Sublist.countP_le _ (List.drop_sublist 1 s.entries)
        · exact le_refl _
      by_cases hk : k = placeholderKey
      · have h0 : List.countP (fun e => e.1 == placeholderKey) s.entries = 0 := by
          rw [List.countP_eq_zero]
          intro a ha hp
          have hne := List.find?_eq_none.mp hfind a ha
          rw [hk] at hne
          exact hne hp
        have hsingle :
            List.countP (fun e => e.1 == placeholderKey)
              [(k, Handle.real k wh.1 wh.2)] ≤ 1 := by
          rw [List.countP_cons]
          simp [hk]
        omega
      · have hsingle :
            List.countP (fun e => e.1 == placeholderKey)
              [(k, Handle.real k wh.1 wh.2)] = 0 := by
          rw [List.countP_eq_zero]
          intro a ha hp
          have ha' : a = (k, Handle.real k wh.1 wh.2) := by simpa using ha
          rw [ha'] at hp
          exact hk (by simpa using hp)
        omega
  · simp only [getOrLoad, hfind]
    exact hs

/-- Any request sequence preserves "at most one placeholder entry". -/
theorem runGetOrLoad_placeholderCount_le (loader : Key → Option (Nat × Nat))
    (N : Nat) :
    ∀ (keys : List Key) (s : CacheState), placeholderCount s.entries ≤ 1 →
      placeholderCount (runGetOrLoad loader N s keys).entries ≤ 1 := by
  intro keys
  induction keys with
  | nil =>
    intro s hs
    simpa [runGetOrLoad_nil] using hs
  | cons k ks ih =>
    intro s hs
    rw [runGetOrLoad_cons]
    exact ih _ (getOrLoad_placeholderCount_le loader N s k hs)

/-- Looking up the placeholder key in a list whose placeholder-keyed
entries all carry the placeholder handle yields the placeholder handle. -/
theorem find?_placeholder_getD (l : List (Key × Handle))
    (hph : ∀ e ∈ l, e.1 = placeholderKey → e.2 = Handle.placeholder) :
    ((l.find? (fun e => e.1 == placeholderKey)).map Prod.snd).getD
      Handle.placeholder = Handle.placeholder := by
  rcases hf : l.find? (fun e => e.1 == placeholderKey) with _ | e
  · rw [hf]
    rfl
  · have he := List.mem_of_find?_eq_some hf
    have hk : e.1 = placeholderKey := by
      have := List.find?_some hf
      simpa using this
    rw [hf]
    simp [hph e he hk]

/-- The failure branch of `getOrLoad` preserves "placeholder-keyed
entries carry the placeholder handle". -/
theorem ph_handle_extend (l : List (Key × Handle))
    (hph : ∀ e ∈ l, e.1 = placeholderKey → e.2 = Handle.placeholder) :
    ∀ e ∈ (if l.any (fun e => e.1 == placeholderKey) then l
           else l ++ [(placeholderKey, Handle.placeholder)]),
      e.1 = placeholderKey → e.2 = Handle.placeholder := by
  split
  · exact hph
  · intro e he hk
    rcases List.mem_append.mp he with h1 | h1
    · exact hph e h1 hk
    · have he' : e = (placeholderKey, Handle.placeholder) := by simpa using h1
      rw [he']

/-- The failure branch of `getOrLoad` preserves "no entry has key `k`"
when `k` is not the placeholder key. -/
theorem no_key_extend (l : List (Key × Handle)) (k : Key)
    (hknp : k ≠ placeholderKey) (hmem : ∀ e ∈ l, e.1 ≠ k) :
    ∀ e ∈ (if l.any (fun e => e.1 == placeholderKey) then l
           else l ++ [(placeholderKey, Handle.placeholder)]),
      e.1 ≠ k := by
  split
  · exact hmem
  · intro e he
    rcases List.mem_append.mp he with h1 | h1
    · exact hmem e h1
    · have he' : e = (placeholderKey, Handle.placeholder) := by simpa using h1
      rw [he']
      exact fun h => hknp h.symm

/-- The failure branch of `getOrLoad`, fully described. -/
theorem getOrLoad_fail_eq (loader : Key → Option (Nat × Nat)) (N : Nat)
    (s : CacheState) (k : Key)
    (hfind : s.entries.find? (fun x => x.1 == k) = none)
    (hload : loader k = none) :
    getOrLoad loader N s k =
      (⟨if s.entries.any (fun e => e.1 == placeholderKey) then s.entries
        else s.entries ++ [(placeholderKey, Handle.placeholder)], s.calls + 1⟩,
       (((if s.entries.any (fun e => e.1 == placeholderKey) then s.entries
          else s.entries ++ [(placeholderKey, Handle.placeholder)]).find?
           (fun e => e.1 == placeholderKey)).map Prod.snd).getD
         Handle.placeholder) := by
  simp only [getOrLoad, hfind, hload]

/-- Claim C1 (amended): for request sequences in which every load
succeeds, the cache never holds more than `N` entries; a cache hit
leaves the cache unchanged (so hits do not affect the eviction order),
and a successful insert of a new key into a cache at or beyond capacity
evicts exactly the oldest-inserted entry still present.  (The original
bound over sequences that include failing loads is refuted by
`C1_counterexample`: the placeholder insert bypasses the capacity
check, after which the non-placeholder entry count can exceed `N`.) -/
theorem C1_fifo_bounded (loader : Key → Option (Nat × Nat)) (N : Nat)
    (keys : List Key) (hN : 1 ≤ N)
    (hok : ∀ k ∈ keys, (loader k).isSome) :
    (runGetOrLoad loader N ⟨[], 0⟩ keys).entries.length ≤ N ∧
    (∀ (s : CacheState) (k : Key) (e : Key × Handle),
      s.entries.find? (fun x => x.1 == k) = some e →
      getOrLoad loader N s k = (s, e.2)) ∧
    (∀ (s : CacheState) (k : Key) (wh : Nat × Nat),
      s.entries.find? (fun x => x.1 == k) = none → loader k = some wh →
      N ≤ s.entries.length →
      (getOrLoad loader N s k).1.entries =
        s.entries.drop 1 ++ [(k, Handle.real k wh.1 wh.2)]) :=
  ⟨runGetOrLoad_length_le loader N hN keys ⟨[], 0⟩ hok (by simp),
   fun s k e h => getOrLoad_hit loader N s k e h,
   fun s k wh h1 h2 h3 => getOrLoad_evict loader N s k wh h1 h2 h3⟩

/-- Witness for C1 at `N = 16` and a concrete all-successful trace. -/
theorem C1_witness :
    (runGetOrLoad okLoader 16 ⟨[], 0⟩ cexKeysB).entries.length ≤ 16 :=
  (C1_fifo_bounded okLoader 16 cexKeysB (by decide) (by decide)).1

/-- Counterexample to C1 as stated: after sixteen successful loads, one
failing load and seventeen further successful loads of distinct keys
(cache size 16), the cache holds seventeen non-placeholder entries. -/
theorem C1_counterexample :
    16 < nonPlaceholderCount
      (runGetOrLoad cexLoader 16 ⟨[], 0⟩ (cexKeysA ++ cexKeysB)).entries := by
  decide

/-- Claim C2 (amended): the placeholder is an ordinary cache entry under
the key `"placeholder"`: at most one such entry ever exists, and a
failing load never evicts anything (it reuses the placeholder entry or
appends it, bypassing the capacity check).  (The exemption claims are
refuted by `C2_counterexample`: the placeholder does count toward the
`len >= cache_size` test and is itself FIFO-evicted once oldest, after
which a later failure re-creates it.) -/
theorem C2_placeholder_entry (loader : Key → Option (Nat × Nat)) (N : Nat)
    (keys : List Key) (s : CacheState) (k : Key) :
    placeholderCount (runGetOrLoad loader N ⟨[], 0⟩ keys).entries ≤ 1 ∧
    (loader k = none →
      (getOrLoad loader N s k).1.entries = s.entries ∨
      (getOrLoad loader N s k).1.entries =
        s.entries ++ [(placeholderKey, Handle.placeholder)]) :=
  ⟨runGetOrLoad_placeholderCount_le loader N keys ⟨[], 0⟩ (by simp [placeholderCount]),
   fun h => getOrLoad_fail_entries loader N s k h⟩

/-- Witness for C2 at a concrete trace with a failing load. -/
theorem C2_witness :
    placeholderCount (runGetOrLoad failLoader 16 ⟨[], 0⟩
      ["a.png".data, "b.png".data]).entries ≤ 1 ∧
    ((getOrLoad failLoader 16 ⟨[], 0⟩ "a.png".data).1.entries = [] ∨
      (getOrLoad failLoader 16 ⟨[], 0⟩ "a.png".data).1.entries =
        [] ++ [(placeholderKey, Handle.placeholder)]) :=
  ⟨(C2_placeholder_entry failLoader 16 ["a.png".data, "b.png".data]
      ⟨[], 0⟩ "a.png".data).1,
   (C2_placeholder_entry failLoader 16 ["a.png".data, "b.png".data]
      ⟨[], 0⟩ "a.png".data).2 rfl⟩

/-- Counterexample to C2 as stated: on the trace of `C1_counterexample`
the placeholder entry exists after the failing load but has been evicted
by the end, so FIFO eviction does remove the placeholder. -/
theorem C2_counterexample :
    (runGetOrLoad cexLoader 16 ⟨[], 0⟩ cexKeysA).entries.any
        (fun e => e.1 == placeholderKey) = true ∧
    (runGetOrLoad cexLoader 16 ⟨[], 0⟩ (cexKeysA ++ cexKeysB)).entries.any
        (fun e => e.1 == placeholderKey) = false := by
  constructor
  · decide
  · decide

/-- Claim C3 (amended): when the loader fails for a key that is not
cached (and is not the sentinel key itself), the load returns the shared
placeholder handle; a subsequent request for the same failing key
invokes the external loader again (the failing key itself is never
cached) and, failing again, returns the same placeholder handle. -/
theorem C3_placeholder_fallback (loader : Key → Option (Nat × Nat)) (N : Nat)
    (s : CacheState) (k : Key) (hfail : loader k = none)
    (hknp : k ≠ placeholderKey) (hmem : ∀ e ∈ s.entries, e.1 ≠ k)
    (hph : ∀ e ∈ s.entries, e.1 = placeholderKey → e.2 = Handle.placeholder) :
    (getOrLoad loader N s k).2 = Handle.placeholder ∧
    (getOrLoad loader N s k).1.calls = s.calls + 1 ∧
    (getOrLoad loader N (getOrLoad loader N s k).1 k).2 = Handle.placeholder ∧
    (getOrLoad loader N (getOrLoad loader N s k).1 k).1.calls = s.calls + 2 := by
  have hfind : s.entries.find? (fun x => x.1 == k) = none :=
    List.find?_eq_none.mpr (fun x hx => by simpa using hmem x hx)
  have hstep := getOrLoad_fail_eq loader N s k hfind hfail
  have hph1 := ph_handle_extend s.entries hph
  have hmem1 := no_key_extend s.entries k hknp hmem
  rw [hstep]
  have hfind1 :
      (if s.entries.any (fun e => e.1 == placeholderKey) then s.entries
       else s.entries ++ [(placeholderKey, Handle.placeholder)]).find?
        (fun x => x.1 == k) = none :=
    List.find?_eq_none.mpr (fun x hx => by simpa using hmem1 x hx)
  have hstep2 := getOrLoad_fail_eq loader N
    ⟨if s.entries.any (fun e => e.1 == placeholderKey) then s.entries
      else s.entries ++ [(placeholderKey, Handle.placeholder)], s.calls + 1⟩
    k hfind1 hfail
  refine ⟨find?_placeholder_getD _ hph1, rfl, ?_, ?_⟩
  · rw [hstep2]
    exact find?_placeholder_getD _ (ph_handle_extend _ hph1)
  · rw [hstep2]

/-- Witness for C3 at the spec's concrete scenario: the loader fails for
`"root_3.jpg"` on an empty cache. -/
theorem C3_witness :
    (getOrLoad failLoader 16 ⟨[], 0⟩ "root_3.jpg".data).2 =
        Handle.placeholder ∧
    (getOrLoad failLoader 16 ⟨[], 0⟩ "root_3.jpg".data).1.calls = 1 ∧
    (getOrLoad failLoader 16
        (getOrLoad failLoader 16 ⟨[], 0⟩ "root_3.jpg".data).1
        "root_3.jpg".data).2 = Handle.placeholder ∧
    (getOrLoad failLoader 16
        (getOrLoad failLoader 16 ⟨[], 0⟩ "root_3.jpg".data).1
        "root_3.jpg".data).1.calls = 2 :=
  C3_placeholder_fallback failLoader 16 ⟨[], 0⟩ "root_3.jpg".data rfl
    (by decide) (by simp) (by simp)

/-- Counterexample to C3 as stated: a second request for the same
failing key performs a second loader invocation (the call counter
reaches 2), because the failing key itself is never inserted into the
cache. -/
theorem C3_counterexample :
    (getOrLoad failLoader 16 ⟨[], 0⟩ "root_3.jpg".data).1.calls = 1 ∧
    (getOrLoad failLoader 16
        (getOrLoad failLoader 16 ⟨[], 0⟩ "root_3.jpg".data).1
        "root_3.jpg".data).1.calls = 2 := by
  constructor
  · decide
  · decide

/-! Helper lemmas about the animation state machine. -/

/-- Starting a zoom-in animation while idle, as a record update. -/
theorem startZoom_in_eq (loader : Key → Option (Nat × Nat)) (v : Viewer)
    (q : Fin 4) (hIdle : v.isAnimating = false) :
    startZoomAnimation loader v q true =
      { v with isAnimating := true, zoomDirection := 1,
               zoomStartBounds :=
                 (0, 0, v.currentImage.size.1, v.currentImage.size.2),
               zoomEndBounds :=
                 quadrantBounds v.currentImage.size.1 v.currentImage.size.2 q,
               pendingPath := some (v.currentPath ++ [q]),
               currentFrame := 0, timerOn := true } := by
  simp [startZoomAnimation, hIdle]

/-- Starting a zoom-out animation while idle on a non-empty path, as a
record update: the path is popped immediately, the parent image is
loaded synchronously through the cache, and the session runs from the
removed quadrant's rect in the parent image to the parent's full rect. -/
theorem startZoom_out_eq (loader : Key → Option (Nat × Nat)) (v : Viewer)
    (p : List (Fin 4)) (q q0 : Fin 4) (hIdle : v.isAnimating = false)
    (hPath : v.currentPath = p ++ [q]) :
    startZoomAnimation loader v q0 false =
      (let r := getOrLoad loader v.cacheSize ⟨v.imageCache, v.loaderCalls⟩
          (getImageFilename v.rootImagePath p)
       { v with isAnimating := true, zoomDirection := -1,
                currentPath := p,
                imageCache := r.1.entries, loaderCalls := r.1.calls,
                currentImage := r.2,
                zoomStartBounds := quadrantBounds r.2.size.1 r.2.size.2 q,
                zoomEndBounds := (0, 0, r.2.size.1, r.2.size.2),
                currentFrame := 0, timerOn := true }) := by
  simp [startZoomAnimation, hIdle, hPath, List.getLast?_concat,
    List.dropLast_concat, loadCurrentImage]

/-- Ticking `n ≤ animation_frames` times from frame 0 only advances the
frame counter. -/
theorem animateStep_iterate (loader : Key → Option (Nat × Nat)) (v : Viewer)
    (n : Nat) (hn : n ≤ v.animationFrames) (h0 : v.currentFrame = 0) :
    (animateStep loader)^[n] v = { v with currentFrame := n } := by
  induction n with
  | zero =>
    rw [Function.iterate_zero_apply, ← h0]
  | succ m ih =>
    rw [Function.iterate_succ_apply', ih (by omega)]
    have hm : ¬ v.animationFrames ≤ m := by omega
    simp [animateStep, hm]

/-- Twenty-one ticks from frame 0 of a 20-frame session emit the twenty
frames and then run the completion branch. -/
theorem animate_complete (loader : Key → Option (Nat × Nat)) (v : Viewer)
    (hF : v.animationFrames = 20) (h0 : v.currentFrame = 0) :
    (animateStep loader)^[21] v =
      animateZoomFinish loader { v with currentFrame := 20 } := by
  have h20 := animateStep_iterate loader v 20 (by omega) h0
  rw [show (21 : Nat) = 20 + 1 from rfl, Function.iterate_succ_apply', h20]
  simp [animateStep, hF]

/-- Completion of a zoom-in animation with pending path `pp`, as a
record update. -/
theorem finish_zoom_in_eq (loader : Key → Option (Nat × Nat)) (v : Viewer)
    (pp : List (Fin 4)) (hdir : v.zoomDirection = 1)
    (hpp : v.pendingPath = some pp) :
    animateZoomFinish loader v =
      (let r := getOrLoad loader v.cacheSize ⟨v.imageCache, v.loaderCalls⟩
          (getImageFilename v.rootImagePath pp)
       { v with isAnimating := false, currentPath := pp,
                imageCache := r.1.entries, loaderCalls := r.1.calls,
                currentImage := r.2, timerOn := false }) := by
  simp [animateZoomFinish, hdir, hpp, loadCurrentImage]

/-- Completion of a zoom-out animation changes no path and loads
nothing. -/
theorem finish_zoom_out_eq (loader : Key → Option (Nat × Nat)) (v : Viewer)
    (hdir : v.zoomDirection = -1) :
    animateZoomFinish loader v =
      { v with isAnimating := false, timerOn := false } := by
  have hne : ¬ v.zoomDirection = 1 := by
    rw [hdir]
    decide
  simp [animateZoomFinish, hne]

/-- Running a zoom-out session to completion leaves the (already
popped) path unchanged. -/
theorem animate_out_path (loader : Key → Option (Nat × Nat)) (u : Viewer)
    (hF : u.animationFrames = 20) (h0 : u.currentFrame = 0)
    (hdir : u.zoomDirection = -1) :
    ((animateStep loader)^[21] u).currentPath = u.currentPath := by
  rw [animate_complete loader u hF h0]
  rw [finish_zoom_out_eq loader { u with currentFrame := 20 }
    (by simpa using hdir)]

/-- The complete zoom-in run: start while idle, tick twenty-one times;
the final state commits the appended path and resolves its tile through
the cache. -/
theorem zoom_in_run_eq (loader : Key → Option (Nat × Nat)) (v : Viewer)
    (q : Fin 4) (hIdle : v.isAnimating = false)
    (hF : v.animationFrames = 20) :
    (animateStep loader)^[21] (startZoomAnimation loader v q true) =
      (let r := getOrLoad loader v.cacheSize ⟨v.imageCache, v.loaderCalls⟩
          (getImageFilename v.rootImagePath (v.currentPath ++ [q]))
       { v with isAnimating := false, zoomDirection := 1,
                zoomStartBounds :=
                  (0, 0, v.currentImage.size.1, v.currentImage.size.2),
                zoomEndBounds :=
                  quadrantBounds v.currentImage.size.1 v.currentImage.size.2 q,
                pendingPath := some (v.currentPath ++ [q]),
                currentPath := v.currentPath ++ [q],
                imageCache := r.1.entries, loaderCalls := r.1.calls,
                currentImage := r.2,
                currentFrame := 20, timerOn := false }) := by
  rw [startZoom_in_eq loader v q hIdle]
  rw [animate_complete loader
    { v with isAnimating := true, zoomDirection := 1,
             zoomStartBounds :=
               (0, 0, v.currentImage.size.1, v.currentImage.size.2),
             zoomEndBounds :=
               quadrantBounds v.currentImage.size.1 v.currentImage.size.2 q,
             pendingPath := some (v.currentPath ++ [q]),
             currentFrame := 0, timerOn := true }
    (by simpa using hF) rfl]
  rw [finish_zoom_in_eq loader _ (v.currentPath ++ [q]) rfl rfl]

/-- Claim C4 (confirmed): a zoom-in request at quadrant `q` while idle
sets start bounds to the full current rect, end bounds to quadrant `q`'s
rect and the pending path to the current path with `q` appended; the
current path is unchanged through all twenty animation frames, and at
the final frame it becomes the pending path, whose tile is resolved
through the cache. -/
theorem C4_zoom_in_session (loader : Key → Option (Nat × Nat)) (v : Viewer)
    (q : Fin 4) (hIdle : v.isAnimating = false)
    (hF : v.animationFrames = 20) :
    (startZoomAnimation loader v q true).zoomStartBounds =
        (0, 0, v.currentImage.size.1, v.currentImage.size.2) ∧
    (startZoomAnimation loader v q true).zoomEndBounds =
        quadrantBounds v.currentImage.size.1 v.currentImage.size.2 q ∧
    (startZoomAnimation loader v q true).pendingPath =
        some (v.currentPath ++ [q]) ∧
    (∀ n, n ≤ 20 →
      ((animateStep loader)^[n]
        (startZoomAnimation loader v q true)).currentPath = v.currentPath) ∧
    ((animateStep loader)^[21]
      (startZoomAnimation loader v q true)).isAnimating = false ∧
    ((animateStep loader)^[21]
      (startZoomAnimation loader v q true)).currentPath =
        v.currentPath ++ [q] ∧
    ((animateStep loader)^[21]
      (startZoomAnimation loader v q true)).currentImage =
      (getOrLoad loader v.cacheSize ⟨v.imageCache, v.loaderCalls⟩
        (getImageFilename v.rootImagePath (v.currentPath ++ [q]))).2 := by
  have hrun := zoom_in_run_eq loader v q hIdle hF
  refine ⟨?_, ?_, ?_, ?_, ?_, ?_, ?_⟩
  · rw [startZoom_in_eq loader v q hIdle]
  · rw [startZoom_in_eq loader v q hIdle]
  · rw [startZoom_in_eq loader v q hIdle]
  · intro n hn
    rw [startZoom_in_eq loader v q hIdle]
    rw [animateStep_iterate loader
      { v with isAnimating := true, zoomDirection := 1,
               zoomStartBounds :=
                 (0, 0, v.currentImage.size.1, v.currentImage.size.2),
               zoomEndBounds :=
                 quadrantBounds v.currentImage.size.1 v.currentImage.size.2 q,
               pendingPath := some (v.currentPath ++ [q]),
               currentFrame := 0, timerOn := true }
      n (by simpa [hF] using hn) rfl]
  · rw [hrun]
  · rw [hrun]
  · rw [hrun]

/-- Witness for C4 at the spec's scenario: base `"root.jpg"`, empty
path, quadrant 2 on a 400×400 image. -/
theorem C4_witness :
    (startZoomAnimation okLoader rootViewer 2 true).pendingPath =
        some [2] ∧
    (startZoomAnimation okLoader rootViewer 2 true).zoomEndBounds =
        (0, 200, 200, 400) ∧
    ((animateStep okLoader)^[21]
      (startZoomAnimation okLoader rootViewer 2 true)).currentPath = [2] ∧
    ((animateStep okLoader)^[21]
      (startZoomAnimation okLoader rootViewer 2 true)).currentImage =
        Handle.real "root_2.jpg".data 400 400 := by
  have h := C4_zoom_in_session okLoader rootViewer 2 rfl rfl
  exact ⟨h.2.2.1, h.2.1.trans (by decide), h.2.2.2.2.2.1,
    h.2.2.2.2.2.2.trans (by decide)⟩

/-- Claim C5 (confirmed): a zoom-out request while idle on a non-empty
path pops the path immediately (before the animation completes), loads
the parent image synchronously through the cache, runs the session from
the removed quadrant's rect in the parent image to the parent's full
rect, and performs no further path change on completion. -/
theorem C5_zoom_out_session (loader : Key → Option (Nat × Nat)) (v : Viewer)
    (p : List (Fin 4)) (q q0 : Fin 4) (hIdle : v.isAnimating = false)
    (hF : v.animationFrames = 20) (hPath : v.currentPath = p ++ [q]) :
    (startZoomAnimation loader v q0 false).currentPath = p ∧
    (startZoomAnimation loader v q0 false).currentImage =
      (getOrLoad loader v.cacheSize ⟨v.imageCache, v.loaderCalls⟩
        (getImageFilename v.rootImagePath p)).2 ∧
    (startZoomAnimation loader v q0 false).zoomStartBounds =
      quadrantBounds
        (getOrLoad loader v.cacheSize ⟨v.imageCache, v.loaderCalls⟩
          (getImageFilename v.rootImagePath p)).2.size.1
        (getOrLoad loader v.cacheSize ⟨v.imageCache, v.loaderCalls⟩
          (getImageFilename v.rootImagePath p)).2.size.2 q ∧
    (startZoomAnimation loader v q0 false).zoomEndBounds =
      (0, 0,
       (getOrLoad loader v.cacheSize ⟨v.imageCache, v.loaderCalls⟩
         (getImageFilename v.rootImagePath p)).2.size.1,
       (getOrLoad loader v.cacheSize ⟨v.imageCache, v.loaderCalls⟩
         (getImageFilename v.rootImagePath p)).2.size.2) ∧
    (startZoomAnimation loader v q0 false).isAnimating = true ∧
    ((animateStep loader)^[21]
      (startZoomAnimation loader v q0 false)).currentPath = p := by
  refine ⟨?_, ?_, ?_, ?_, ?_, ?_⟩ <;>
    rw [startZoom_out_eq loader v p q q0 hIdle hPath]
  exact animate_out_path loader _ hF rfl rfl

/-- Witness for C5 at the spec's scenario: current path `"0_2_1"` pops
to `"0_2"`, and the session runs from quadrant 1's rect of the parent
image for `"0_2"` to that image's full bounds. -/
theorem C5_witness :
    (startZoomAnimation okLoader deepViewer 0 false).currentPath = [0, 2] ∧
    (startZoomAnimation okLoader deepViewer 0 false).currentImage =
      Handle.real "root_0_2.jpg".data 400 400 ∧
    (startZoomAnimation okLoader deepViewer 0 false).zoomStartBounds =
      (200, 0, 400, 200) ∧
    (startZoomAnimation okLoader deepViewer 0 false).zoomEndBounds =
      (0, 0, 400, 400) ∧
    ((animateStep okLoader)^[21]
      (startZoomAnimation okLoader deepViewer 0 false)).currentPath =
        [0, 2] := by
  have h := C5_zoom_out_session okLoader deepViewer [0, 2] 1 0 rfl rfl rfl
  exact ⟨h.1, h.2.1.trans (by decide), h.2.2.1.trans (by decide),
    h.2.2.2.1.trans (by decide), h.2.2.2.2.2⟩

/-- Claim C6 (confirmed): hover classification computes
`(2 if y >= mid_y else 0) + (1 if x >= mid_x else 0)` with floor-halved
midpoints, always yields a quadrant index below 4, and on the image
rectangle the four quadrant rects (half-open on their high edges) are
exactly the preimages of the four indices — a partition with no gaps or
overlaps, with midline points falling in the higher-index quadrant. -/
theorem C6_classify_partition (w h : Nat) (x y : ℚ) (hx0 : 0 ≤ x)
    (hxw : x < (w : ℚ)) (hy0 : 0 ≤ y) (hyh : y < (h : ℚ)) :
    classifyQuadrant x y w h =
      (if ((h / 2 : Nat) : ℚ) ≤ y then 2 else 0) +
        (if ((w / 2 : Nat) : ℚ) ≤ x then 1 else 0) ∧
    classifyQuadrant x y w h < 4 ∧
    (∀ q : Fin 4, inQuadrantRect w h q x y ↔ classifyQuadrant x y w h = q.val) := by
  have hw2 : w >>> 1 = w / 2 := by
    rw [Nat.shiftRight_eq_div_pow]
  have hh2 : h >>> 1 = h / 2 := by
    rw [Nat.shiftRight_eq_div_pow]
  refine ⟨by rw [classifyQuadrant, hw2, hh2], ?_, ?_⟩
  · rw [classifyQuadrant]
    split_ifs <;> norm_num
  · intro q
    by_cases hxc : ((w / 2 : Nat) : ℚ) ≤ x <;>
      by_cases hyc : ((h / 2 : Nat) : ℚ) ≤ y
    · fin_cases q <;>
        simp only [inQuadrantRect, quadrantBounds, classifyQuadrant, hw2, hh2,
          Nat.cast_zero] <;>
        rw [if_pos hyc, if_pos hxc] <;>
        constructor <;>
        first
          | (rintro ⟨h1, h2, h3, h4⟩
             first
               | rfl
               | (exfalso; linarith))
          | (intro hval
             first
               | exact ⟨hxc, hxw, hyc, hyh⟩
               | exact absurd hval (by norm_num))
    · fin_cases q <;>
        simp only [inQuadrantRect, quadrantBounds, classifyQuadrant, hw2, hh2,
          Nat.cast_zero] <;>
        rw [if_neg hyc, if_pos hxc] <;>
        constructor <;>
        first
          | (rintro ⟨h1, h2, h3, h4⟩
             first
               | rfl
               | (exfalso; linarith [not_le.mp hyc]))
          | (intro hval
             first
               | exact ⟨hxc, hxw, hy0, not_le.mp hyc⟩
               | exact absurd hval (by norm_num))
    · fin_cases q <;>
        simp only [inQuadrantRect, quadrantBounds, classifyQuadrant, hw2, hh2,
          Nat.cast_zero] <;>
        rw [if_pos hyc, if_neg hxc] <;>
        constructor <;>
        first
          | (rintro ⟨h1, h2, h3, h4⟩
             first
               | rfl
               | (exfalso; linarith [not_le.mp hxc]))
          | (intro hval
             first
               | exact ⟨hx0, not_le.mp hxc, hyc, hyh⟩
               | exact absurd hval (by norm_num))
    · fin_cases q <;>
        simp only [inQuadrantRect, quadrantBounds, classifyQuadrant, hw2, hh2,
          Nat.cast_zero] <;>
        rw [if_neg hyc, if_neg hxc] <;>
        constructor <;>
        first
          | (rintro ⟨h1, h2, h3, h4⟩
             first
               | rfl
               | (exfalso; linarith [not_le.mp hxc, not_le.mp hyc]))
          | (intro hval
             first
               | exact ⟨hx0, not_le.mp hxc, hy0, not_le.mp hyc⟩
               | exact absurd hval (by norm_num))

/-- Witness for C6 at the spec's boundary scenario: the point
`(mid_x, mid_y) = (200, 200)` on a 400×400 image classifies as
quadrant 3. -/
theorem C6_witness : classifyQuadrant 200 200 400 400 = 3 := by
  have h := C6_classify_partition 400 400 200 200 (by norm_num) (by norm_num)
    (by norm_num) (by norm_num)
  exact (h.2.2 3).mp (by norm_num [inQuadrantRect, quadrantBounds, Nat.shiftRight_eq_div_pow])

/-- Claim C8 (confirmed): with the fixed frame count 20, the eased
parameter over the emitted frames 0..19 is non-decreasing, stays within
`[0, 1]`, is 0 exactly at frame 0 and 1 exactly at frame 19; and every
emitted rect linearly interpolates each of its four coordinates between
the start and end bounds by the eased parameter. -/
theorem C8_smoothstep_schedule :
    (∀ f, f < 19 → easedParam 20 f ≤ easedParam 20 (f + 1)) ∧
    (∀ f, f < 20 → 0 ≤ easedParam 20 f ∧ easedParam 20 f ≤ 1) ∧
    (∀ f, f < 20 → (easedParam 20 f = 0 ↔ f = 0)) ∧
    (∀ f, f < 20 → (easedParam 20 f = 1 ↔ f = 19)) ∧
    (∀ v : Viewer, frameRect v =
      ((v.zoomStartBounds.1 : ℚ) +
         ((v.zoomEndBounds.1 : ℚ) - (v.zoomStartBounds.1 : ℚ)) *
           easedParam v.animationFrames v.currentFrame,
       (v.zoomStartBounds.2.1 : ℚ) +
         ((v.zoomEndBounds.2.1 : ℚ) - (v.zoomStartBounds.2.1 : ℚ)) *
           easedParam v.animationFrames v.currentFrame,
       (v.zoomStartBounds.2.2.1 : ℚ) +
         ((v.zoomEndBounds.2.2.1 : ℚ) - (v.zoomStartBounds.2.2.1 : ℚ)) *
           easedParam v.animationFrames v.currentFrame,
       (v.zoomStartBounds.2.2.2 : ℚ) +
         ((v.zoomEndBounds.2.2.2 : ℚ) - (v.zoomStartBounds.2.2.2 : ℚ)) *
           easedParam v.animationFrames v.currentFrame)) := by
  refine ⟨?_, ?_, ?_, ?_, ?_⟩
  · intro f hf
    interval_cases f <;> norm_num [easedParam]
  · intro f hf
    interval_cases f <;> norm_num [easedParam]
  · intro f hf
    interval_cases f <;> norm_num [easedParam]
  · intro f hf
    interval_cases f <;> norm_num [easedParam]
  · intro v
    simp only [frameRect, Prod.mk.injEq]
    refine ⟨by ring, by ring, by ring, by ring⟩

/-- Witness for C8 at concrete frames: endpoint values and one
adjacent-pair comparison. -/
theorem C8_witness :
    easedParam 20 0 = 0 ∧ easedParam 20 19 = 1 ∧
      easedParam 20 7 ≤ easedParam 20 8 := by
  have h := C8_smoothstep_schedule
  exact ⟨(h.2.2.1 0 (by norm_num)).mpr rfl,
    (h.2.2.2.1 19 (by norm_num)).mpr rfl, h.1 7 (by norm_num)⟩

/-- Claim C9 (confirmed): a scroll-down event with an empty current
path changes nothing — a defined no-op of the scroll handler. -/
theorem C9_zoom_out_at_root (loader : Key → Option (Nat × Nat)) (v : Viewer)
    (hPath : v.currentPath = []) : onScroll loader v ScrollDir.down = v := by
  simp only [onScroll, hPath]
  split <;> rfl

/-- Witness for C9 at a concrete idle state at the root. -/
theorem C9_witness : onScroll okLoader rootViewer ScrollDir.down = rootViewer :=
  C9_zoom_out_at_root okLoader rootViewer rfl

/-- Claim C10 (confirmed): calling the engine's `start_zoom_animation`
directly with `zoom_in = False` on an idle state with empty path does
not no-op: it starts a degenerate session whose start and end bounds
are both the full current image rect, leaves the current path
unchanged, and starts the frame timer — the empty-path guard lives only
in the scroll handler. -/
theorem C10_engine_lacks_guard (loader : Key → Option (Nat × Nat))
    (v : Viewer) (q : Fin 4) (hIdle : v.isAnimating = false)
    (hPath : v.currentPath = []) :
    (startZoomAnimation loader v q false).isAnimating = true ∧
    (startZoomAnimation loader v q false).zoomStartBounds =
      (0, 0, v.currentImage.size.1, v.currentImage.size.2) ∧
    (startZoomAnimation loader v q false).zoomEndBounds =
      (0, 0, v.currentImage.size.1, v.currentImage.size.2) ∧
    (startZoomAnimation loader v q false).currentPath = v.currentPath ∧
    (startZoomAnimation loader v q false).timerOn = true := by
  have he : startZoomAnimation loader v q false =
      { v with isAnimating := true, zoomDirection := -1,
               zoomStartBounds :=
                 (0, 0, v.currentImage.size.1, v.currentImage.size.2),
               zoomEndBounds :=
                 (0, 0, v.currentImage.size.1, v.currentImage.size.2),
               currentFrame := 0, timerOn := true } := by
    simp [startZoomAnimation, hIdle, hPath]
  rw [he]
  exact ⟨rfl, rfl, rfl, rfl, rfl⟩

/-- Witness for C10 at a concrete idle root state. -/
theorem C10_witness :
    (startZoomAnimation okLoader rootViewer 0 false).isAnimating = true ∧
    (startZoomAnimation okLoader rootViewer 0 false).zoomStartBounds =
      (0, 0, 400, 400) ∧
    (startZoomAnimation okLoader rootViewer 0 false).zoomEndBounds =
      (0, 0, 400, 400) ∧
    (startZoomAnimation okLoader rootViewer 0 false).currentPath = [] ∧
    (startZoomAnimation okLoader rootViewer 0 false).timerOn = true := by
  have h := C10_engine_lacks_guard okLoader rootViewer 0 rfl rfl
  exact ⟨h.1, h.2.1.trans (by decide), h.2.2.1.trans (by decide),
    h.2.2.2.1, h.2.2.2.2⟩

end QuadZoom
